import Mathlib

/-!
Verification of `DropboxForceDownload.cpp` (KnutssonDevelopment/DropboxForceDownload).

The C++ program walks a directory tree, enqueues every regular file into a
shared FIFO queue, and a pool of worker threads drains the queue, "touching"
each file (opening it for binary reading and reading up to 1024 bytes) to make
a cloud-sync client materialize it.  This file shallowly embeds the program's
functions and proves or refutes the specification claims about it.
-/

namespace DFD

/-! ## Path Sanitizer: `replaceAll` (C++ lines 15-22)

The C++ loop is

    size_t start_pos = 0;
    while ((start_pos = str.find(from, start_pos)) != std::string::npos) {
        str.replace(start_pos, from.length(), to);
        start_pos += to.length();
    }
    return str;

We embed strings as `List Char`.  `findFrom str frm pos` is
`str.find(frm, pos)`: the least position `p ≥ pos` at which `frm` occurs in
`str` (`none` = `npos`).  It is written with an explicit fuel argument
(structurally decreasing) so that it kernel-evaluates; `str.length + 1 - pos`
fuel is always enough since the scan position only grows. -/

def findFromFuel : Nat → List Char → List Char → Nat → Option Nat
  | 0, _, _, _ => none
  | fuel + 1, str, frm, pos =>
    if pos + frm.length ≤ str.length then
      if frm.isPrefixOf (str.drop pos) then some pos
      else findFromFuel fuel str frm (pos + 1)
    else none

def findFrom (str frm : List Char) (pos : Nat) : Option Nat :=
  findFromFuel (str.length + 1 - pos) str frm pos

/-- One iteration of the C++ `while` loop, acting on the loop state
`(str, start_pos)`: find the next occurrence of `frm` at or after `start_pos`;
if there is none the loop exits (`none`); otherwise splice `t` in place of the
occurrence and advance `start_pos` to just past the replacement text. -/
def loopStep (frm t : List Char) (s : List Char × Nat) : Option (List Char × Nat) :=
  match findFrom s.1 frm s.2 with
  | none => none
  | some p => some (s.1.take p ++ t ++ s.1.drop (p + frm.length), p + t.length)

/-- The `while` loop itself, with fuel bounding the number of iterations:
`none` means the fuel ran out with the loop still running, `some str` means the
loop exited normally with final string `str`. -/
def replaceAllFuel : Nat → (List Char × Nat) → List Char → List Char → Option (List Char)
  | 0, _, _, _ => none
  | fuel + 1, s, frm, t =>
    match loopStep frm t s with
    | none => some s.1
    | some s' => replaceAllFuel fuel s' frm t

/-- `replaceAll(str, from, to)` of the C++ source.  For a non-empty pattern the
loop provably exits within `str.length + 1` iterations (each iteration strictly
shrinks the text remaining beyond `start_pos`, see `replaceAll_termination`),
so the `getD` default is never taken at the program's call site. -/
def replaceAll (str frm t : List Char) : List Char :=
  (replaceAllFuel (str.length + 1) (str, 0) frm t).getD str

/-- The doubled path separator `"\\\\"` of the C++ call site: two backslashes. -/
def pat2 : List Char := ['\\', '\\']

/-- The single path separator `"\\"` of the C++ call site: one backslash. -/
def pat1 : List Char := ['\\']

/-- Path sanitization as performed by `processFile` (C++ lines 32-33):
`replaceAll(path_str, "\\\\", "\\")`. -/
def sanitize (s : String) : String :=
  ⟨replaceAll s.data pat2 pat1⟩

example : sanitize ("a\\\\b") = ("a\\b") := by decide
example : sanitize ("\\\\\\") = ("\\\\") := by decide
example : sanitize (sanitize ("\\\\\\")) = ("\\") := by decide

/-! ### Lemmas about the `replaceAll` loop -/

lemma findFromFuel_some {fuel : Nat} {str frm : List Char} {pos p : Nat}
    (h : findFromFuel fuel str frm pos = some p) :
    pos ≤ p ∧ p + frm.length ≤ str.length := by
  induction fuel generalizing pos with
  | zero => simp [findFromFuel] at h
  | succ n ih =>
    rw [findFromFuel] at h
    split at h
    next hc =>
      split at h
      next hp =>
        injection h with h
        subst h
        exact ⟨le_refl _, hc⟩
      next hp =>
        obtain ⟨h1, h2⟩ := ih h
        exact ⟨Nat.le_of_succ_le h1, h2⟩
    next hc => exact absurd h (by simp)

lemma findFrom_some {str frm : List Char} {pos p : Nat}
    (h : findFrom str frm pos = some p) :
    pos ≤ p ∧ p + frm.length ≤ str.length :=
  findFromFuel_some h

lemma loopStep_eq_some {frm t : List Char} {s : List Char × Nat} {p : Nat}
    (h : findFrom s.1 frm s.2 = some p) :
    loopStep frm t s =
      some (s.1.take p ++ t ++ s.1.drop (p + frm.length), p + t.length) := by
  simp [loopStep, h]

/-- One loop iteration keeps total length balanced: the new string is the old
one with `frm.length` characters removed and `t.length` characters inserted. -/
lemma loopStep_length {frm t : List Char} {s s' : List Char × Nat}
    (h : loopStep frm t s = some s') :
    s'.1.length + frm.length = s.1.length + t.length := by
  unfold loopStep at h
  cases hf : findFrom s.1 frm s.2 with
  | none => rw [hf] at h; cases h
  | some p =>
    rw [hf] at h
    injection h with h
    subst h
    obtain ⟨h1, h2⟩ := findFrom_some hf
    simp only [List.length_append, List.length_take, List.length_drop]
    omega

/-- Each iteration of the `while` loop strictly decreases the length of the
string remaining beyond `start_pos`, provided the pattern is non-empty. -/
lemma loopStep_decrease {frm t : List Char} (hfrm : frm ≠ [])
    {s s' : List Char × Nat} (h : loopStep frm t s = some s') :
    s'.1.length - s'.2 < s.1.length - s.2 := by
  unfold loopStep at h
  cases hf : findFrom s.1 frm s.2 with
  | none => rw [hf] at h; cases h
  | some p =>
    rw [hf] at h
    injection h with h
    subst h
    obtain ⟨h1, h2⟩ := findFrom_some hf
    have hl : 1 ≤ frm.length := by
      cases frm with
      | nil => exact absurd rfl hfrm
      | cons a l => simp
    simp only [List.length_append, List.length_take, List.length_drop]
    omega

lemma replaceAllFuel_total {frm t : List Char} (hfrm : frm ≠ []) :
    ∀ (n : Nat) (s : List Char × Nat), s.1.length - s.2 < n →
      ∃ r, replaceAllFuel n s frm t = some r := by
  intro n
  induction n with
  | zero => intro s h; omega
  | succ m ih =>
    intro s h
    cases hstep : loopStep frm t s with
    | none => exact ⟨s.1, by rw [replaceAllFuel, hstep]⟩
    | some s' =>
      have hd := loopStep_decrease hfrm hstep
      obtain ⟨r, hr⟩ := ih s' (by omega)
      exact ⟨r, by rw [replaceAllFuel, hstep]; exact hr⟩

lemma replaceAllFuel_length_le {frm t : List Char} (hts : t.length ≤ frm.length) :
    ∀ (n : Nat) (s : List Char × Nat) (r : List Char),
      replaceAllFuel n s frm t = some r → r.length ≤ s.1.length := by
  intro n
  induction n with
  | zero => intro s r h; simp [replaceAllFuel] at h
  | succ m ih =>
    intro s r h
    rw [replaceAllFuel] at h
    cases hstep : loopStep frm t s with
    | none =>
      rw [hstep] at h
      injection h with h
      subst h
      exact le_refl _
    | some s' =>
      rw [hstep] at h
      have hlen := loopStep_length hstep
      have := ih s' r h
      omega

/-- With the empty pattern the loop never exits: `str.find("", start_pos)`
succeeds at every `start_pos ≤ str.length`, the replacement inserts `t` and
advances `start_pos` by `t.length`, and the invariant
`start_pos ≤ str.length` is maintained, so every amount of fuel runs out. -/
lemma replaceAllFuel_empty_pat {t : List Char} :
    ∀ (fuel : Nat) (str : List Char) (pos : Nat), pos ≤ str.length →
      replaceAllFuel fuel (str, pos) [] t = none := by
  intro fuel
  induction fuel with
  | zero => intro str pos _; rfl
  | succ m ih =>
    intro str pos hpos
    have hf : findFrom str [] pos = some pos := by
      unfold findFrom
      have he : str.length + 1 - pos = (str.length - pos) + 1 := by omega
      rw [he, findFromFuel]
      simp [hpos, List.isPrefixOf]
    have hstep := loopStep_eq_some (t := t) (s := (str, pos)) hf
    rw [replaceAllFuel, hstep]
    apply ih
    simp only [List.length_append, List.length_take, List.length_drop]
    omega

/-- If the pattern occurs nowhere in `str`, the loop exits immediately and
`replaceAll` is the identity. -/
lemma replaceAll_no_match {str frm t : List Char}
    (h : findFrom str frm 0 = none) : replaceAll str frm t = str := by
  unfold replaceAll
  rw [replaceAllFuel]
  unfold loopStep
  simp [h]

lemma string_mk_data (s : String) : String.mk s.data = s := by
  cases s
  rfl

/-- If the doubled separator still occurs in `t`, one more `sanitize` pass
strictly shrinks it. -/
lemma sanitize_shrinks {t : String} {p : Nat}
    (hf : findFrom t.data pat2 0 = some p) :
    (sanitize t).data.length < t.data.length := by
  have hstep := loopStep_eq_some (t := pat1) (s := (t.data, 0)) hf
  obtain ⟨hp1, hp2⟩ := findFrom_some hf
  have hlen := loopStep_length hstep
  set s' : List Char × Nat :=
    (t.data.take p ++ pat1 ++ t.data.drop (p + pat2.length), p + pat1.length) with hs'
  have hlen2 : s'.1.length + 2 = t.data.length + 1 := by
    simpa [pat2, pat1] using hlen
  obtain ⟨r, hr⟩ := @replaceAllFuel_total pat2 pat1 (by decide)
    t.data.length s' (by omega)
  have hrl : r.length ≤ s'.1.length :=
    replaceAllFuel_length_le (by decide) t.data.length s' r hr
  have hall : replaceAllFuel (t.data.length + 1) (t.data, 0) pat2 pat1 = some r := by
    rw [replaceAllFuel, hstep]
    exact hr
  show (replaceAll t.data pat2 pat1).length < t.data.length
  unfold replaceAll
  rw [hall]
  simp only [Option.getD_some]
  omega

/-! ### Claim C4 -/

/-- C4 counterexample: `sanitize` is NOT idempotent.  On the three-character
string of three backslashes, one application yields two backslashes (the first
two collapse to one, and the scan, resuming past the replacement, finds no
further doubled pair), while a second application collapses the remaining two
backslashes to one. -/
theorem sanitize_not_idempotent_cex :
    sanitize (sanitize ("\\\\\\")) ≠ sanitize ("\\\\\\") := by
  decide

/-- C4 (amended): `sanitize` is idempotent on an input exactly when its
once-sanitized form contains no remaining doubled backslash; when a doubled
backslash survives the first pass (as for three consecutive backslashes), a
second pass strictly shrinks the string and the results differ. -/
theorem sanitize_idempotent_iff (s : String) :
    sanitize (sanitize s) = sanitize s ↔
      findFrom (sanitize s).data pat2 0 = none := by
  constructor
  · intro h
    cases hf : findFrom (sanitize s).data pat2 0 with
    | none => rfl
    | some p =>
      have hlt := sanitize_shrinks hf
      rw [h] at hlt
      omega
  · intro h
    show String.mk (replaceAll (sanitize s).data pat2 pat1) = sanitize s
    rw [replaceAll_no_match h, string_mk_data]

/-- C4 witness: on `a\b`, whose sanitized form has no doubled backslash, the
amended idempotence equivalence applies and a second pass changes nothing. -/
theorem sanitize_idempotent_iff_witness :
    sanitize (sanitize ("a\\b")) = sanitize ("a\\b") :=
  (sanitize_idempotent_iff ("a\\b")).mpr (by decide)

/-! ### Claim C9 -/

/-- C9: the `replaceAll` loop terminates for every input whenever the search
pattern is non-empty: (1) each loop iteration strictly decreases the length of
the string remaining beyond `start_pos`, (2) the loop therefore exits within
`str.length + 1` iterations and `replaceAll` returns its result, and (3) with
an empty pattern the loop exhausts every finite amount of fuel (it would run
forever), a case unreachable at the program's only call site, whose pattern is
two backslashes. -/
theorem replaceAll_termination (frm t str : List Char) (h : frm ≠ []) :
    (∀ s s' : List Char × Nat, loopStep frm t s = some s' →
        s'.1.length - s'.2 < s.1.length - s.2) ∧
    (∃ r, replaceAllFuel (str.length + 1) (str, 0) frm t = some r ∧
        replaceAll str frm t = r) ∧
    (∀ (fuel pos : Nat), pos ≤ str.length →
        replaceAllFuel fuel (str, pos) [] t = none) := by
  refine ⟨fun s s' hs => loopStep_decrease h hs, ?_, ?_⟩
  · obtain ⟨r, hr⟩ := replaceAllFuel_total (t := t) h (str.length + 1) (str, 0)
      (by simp)
    exact ⟨r, hr, by unfold replaceAll; rw [hr]; rfl⟩
  · intro fuel pos hpos
    exact replaceAllFuel_empty_pat fuel str pos hpos

/-- C9 witness: the termination theorem instantiated at the program's call
site, pattern two backslashes and replacement one backslash, on a concrete
path string. -/
theorem replaceAll_termination_witness :
    (∀ s s' : List Char × Nat, loopStep pat2 pat1 s = some s' →
        s'.1.length - s'.2 < s.1.length - s.2) ∧
    (∃ r, replaceAllFuel (("ab\\\\c").data.length + 1) (("ab\\\\c").data, 0)
        pat2 pat1 = some r ∧ replaceAll ("ab\\\\c").data pat2 pat1 = r) ∧
    (∀ (fuel pos : Nat), pos ≤ ("ab\\\\c").data.length →
        replaceAllFuel fuel (("ab\\\\c").data, pos) [] pat1 = none) :=
  replaceAll_termination pat2 pat1 (("ab\\\\c").data) (by decide)

/-! ## File Toucher: `processFile` (C++ lines 25-46)

    void processFile(const fs::path& file_path, bool debug) {
        if (file_path.empty()) { std::cerr << "Encountered an empty file path." ...; return; }
        if (debug) { ... std::cout << "Downloading file: " << path_str ...; }   // under console_mutex
        std::ifstream file(file_path, std::ios::binary);
        if (file.is_open()) { char buffer[1024]; file.read(buffer, sizeof(buffer)); }
        else { std::cerr << "Unable to open file: " << file_path ...; }
    }

The filesystem is abstracted by two facts about the file: whether the open
succeeds (`openable`) and its size in bytes (`size`).  `file.read(buffer,
1024)` transfers `min 1024 size` bytes; the code inspects neither the stream
state after the read nor the byte count, so a short read is not an error.
Note the debug line is printed BEFORE the open is attempted.  (The C++ stream
insertion of an `fs::path` quotes the path; the model keeps the raw path text,
which none of the claims distinguish.)  The function body has no throwing
operation (stream failures only set state bits), so it always returns
normally; the model is accordingly a total function. -/

structure PFOut where
  outLines : List String
  errLines : List String
  bytesRead : Option Nat
deriving DecidableEq

def processFile (path : String) (debug : Bool) (openable : Bool) (size : Nat) :
    PFOut :=
  if path = "" then
    { outLines := [], errLines := [("Encountered an empty file path.")],
      bytesRead := none }
  else
    let dbg : List String :=
      if debug then [(("Downloading file: ") ++ sanitize path)] else []
    if openable then
      { outLines := dbg, errLines := [], bytesRead := some (min 1024 size) }
    else
      { outLines := dbg, errLines := [(("Unable to open file: ") ++ path)],
        bytesRead := none }

/-! ### Claim C3 -/

/-- C3 counterexample: with debug enabled, a file whose open FAILS still gets
the `Downloading file:` stdout line (the code prints before attempting the
open), so the line is not written "if and only if the open succeeded", and a
failed open does not produce "only the stderr report". -/
theorem processFile_stdout_despite_open_failure :
    (processFile ("a") true false 0).outLines = [("Downloading file: a")] ∧
    (processFile ("a") true false 0).errLines = [("Unable to open file: a")] := by
  decide

/-- C3 (amended): with debug enabled the `Downloading file:` stdout line is
written for every file with a non-empty path, before and regardless of the
outcome of the open; an open failure adds the stderr report in addition to,
not instead of, the stdout line. -/
theorem processFile_output_characterization
    (path : String) (debug openable : Bool) (size : Nat) :
    (processFile path debug openable size).outLines =
      (if debug = true ∧ path ≠ "" then [(("Downloading file: ") ++ sanitize path)]
       else []) ∧
    (processFile path debug openable size).errLines =
      (if path = "" then [("Encountered an empty file path.")]
       else if openable = true then []
       else [(("Unable to open file: ") ++ path)]) := by
  unfold processFile
  by_cases hp : path = "" <;> cases debug <;> cases openable <;> simp [hp]

/-! ### Claim C8 -/

/-- C8: for every successfully opened file the touch reads exactly
`min 1024 size` bytes — never more than 1024 — from the start of the file, and
neither a file longer than the buffer nor one shorter (early end-of-file) is
reported as an error: the stderr output of a successful open is empty no
matter the size. -/
theorem processFile_reads_at_most_1024
    (path : String) (debug : Bool) (size : Nat) (hpath : path ≠ "") :
    (processFile path debug true size).bytesRead = some (min 1024 size) ∧
    min 1024 size ≤ 1024 ∧
    (processFile path debug true size).errLines = [] := by
  unfold processFile
  simp [hpath]

/-- C8 witness: a 5000-byte file is read for exactly 1024 bytes with no error
report, and a 10-byte file for exactly 10 bytes. -/
theorem processFile_reads_at_most_1024_witness :
    ((processFile ("a") false true 5000).bytesRead = some (min 1024 5000) ∧
     min 1024 5000 ≤ 1024 ∧
     (processFile ("a") false true 5000).errLines = []) ∧
    (processFile ("b") false true 10).bytesRead = some 10 :=
  ⟨processFile_reads_at_most_1024 ("a") false 5000 (by decide),
   by decide⟩

/-! ## Tree Walker: `traverseDirectory` (C++ lines 49-60)

A directory's contents are modelled as a `Forest`: the sequence of entries the
`fs::directory_iterator` yields, each entry being a regular file (with its
path), a readable subdirectory (with its own contents), a subdirectory whose
enumeration throws `fs::filesystem_error` (permission denied, vanished), or an
entry that is neither a regular file nor a directory (skipped by the code). -/

inductive Forest : Type where
  | nil : Forest
  | consFile : String → Forest → Forest
  | consDir : Forest → Forest → Forest
  | consBadDir : Forest → Forest
  | consOther : Forest → Forest
deriving DecidableEq

/-- `traverseDirectory` (C++ lines 49-60): iterate the entries; push each
regular file's path onto the shared queue (modelled by the accumulating
`files` list, a push being an append at the back, each performed under the
queue mutex with a `notify_one`); recurse into each subdirectory with the same
sink.  Entering an unreadable directory throws, which aborts the entire
traversal immediately (the exception propagates out of every recursive call);
the Boolean result records whether the walk completed without throwing, and
the list records everything pushed up to that point. -/
def traverseDirectory : Forest → List String → List String × Bool
  | .nil, files => (files, true)
  | .consFile p rest, files => traverseDirectory rest (files ++ [p])
  | .consDir sub rest, files =>
    match traverseDirectory sub files with
    | (files', true) => traverseDirectory rest files'
    | (files', false) => (files', false)
  | .consBadDir _, files => (files, false)
  | .consOther rest, files => traverseDirectory rest files

/-- Specification-side description of the tree: the regular files reachable
from a forest by following directory entries, in depth-first, left-to-right
order. -/
def reachableFiles : Forest → List String
  | .nil => []
  | .consFile p rest => p :: reachableFiles rest
  | .consDir sub rest => reachableFiles sub ++ reachableFiles rest
  | .consBadDir rest => reachableFiles rest
  | .consOther rest => reachableFiles rest

/-- A forest every directory of which can be enumerated. -/
def good : Forest → Bool
  | .nil => true
  | .consFile _ rest => good rest
  | .consDir sub rest => good sub && good rest
  | .consBadDir _ => false
  | .consOther rest => good rest

/-- On a fully enumerable forest the walk succeeds and pushes exactly the
reachable regular files, depth-first, appended after whatever the sink already
held. -/
lemma traverseDirectory_good :
    ∀ (f : Forest) (files : List String), good f = true →
      traverseDirectory f files = (files ++ reachableFiles f, true) := by
  intro f
  induction f with
  | nil => intro files _; simp [traverseDirectory, reachableFiles]
  | consFile p rest ih =>
    intro files hg
    rw [traverseDirectory, ih _ (by simpa [good] using hg)]
    simp [reachableFiles]
  | consDir sub rest ihsub ihrest =>
    intro files hg
    have hg2 : good sub = true ∧ good rest = true := by
      simpa [good, Bool.and_eq_true] using hg
    rw [traverseDirectory, ihsub _ hg2.1]
    simp only
    rw [ihrest _ hg2.2]
    simp [reachableFiles]
  | consBadDir rest ih =>
    intro files hg
    simp [good] at hg
  | consOther rest ih =>
    intro files hg
    rw [traverseDirectory, ih _ (by simpa [good] using hg)]
    simp [reachableFiles]

/-! ## Work Queue and Worker Pool: `startDirectoryTraversal` (C++ lines 63-111)

The concurrent execution is modelled as a small-step transition system.  A
system state holds the shared queue, the list of pushes the walker has not yet
performed (in walk order — `traverseDirectory` produces them), the `done`
flag, the status of each spawned worker (`true` = still in its loop), and the
log of files handed to `processFile`, in dequeue order.  Each action is one
critical section of the C++ code:

* `push` — the walker appends the next discovered file under the queue mutex
  (lines 52-54);
* `signalDone` — after the walk returns, `done = true` and `notify_all`
  (lines 101-105); possible only once and only after all pushes;
* `popA i` — running worker `i` wakes with the queue non-empty, takes the
  front element and leaves the critical section to process it (lines 76-83);
* `exitA i` — running worker `i` wakes, observes `done` and an empty queue,
  and breaks out of its loop (lines 77-79).

An arbitrary interleaving of these actions is a schedule; the claims quantify
over all schedules, so no particular thread timing is assumed. -/

inductive Action : Type where
  | push : Action
  | signalDone : Action
  | popA : Nat → Action
  | exitA : Nat → Action
deriving DecidableEq

structure SysState where
  queue : List String
  toPush : List String
  done : Bool
  workers : List Bool
  processed : List String
deriving DecidableEq

def applyAction (s : SysState) : Action → Option SysState
  | .push =>
    match s.toPush with
    | [] => none
    | p :: rest => some { s with queue := s.queue ++ [p], toPush := rest }
  | .signalDone =>
    if s.toPush = [] ∧ s.done = false then some { s with done := true } else none
  | .popA i =>
    match s.workers[i]?, s.queue with
    | some true, p :: rest =>
      some { s with queue := rest, processed := s.processed ++ [p] }
    | _, _ => none
  | .exitA i =>
    match s.workers[i]? with
    | some true =>
      if s.done = true ∧ s.queue = [] then
        some { s with workers := s.workers.set i false }
      else none
    | _ => none

def runTrace (s : SysState) : List Action → Option SysState
  | [] => some s
  | a :: tr =>
    match applyAction s a with
    | some s' => runTrace s' tr
    | none => none

/-- No action is applicable: nothing left to push, `done` signalled, and every
worker has exited its loop. -/
def isTerminal (s : SysState) : Bool :=
  s.toPush.isEmpty && s.done && s.workers.all (fun b => !b)

/-- The state when `startDirectoryTraversal` has spawned `n` workers on a tree
whose walk succeeds: nothing pushed yet, the walker about to emit the files in
traversal order, `done` not yet signalled, all workers in their loops. -/
def initState (f : Forest) (n : Nat) : SysState :=
  { queue := [], toPush := (traverseDirectory f []).1, done := false,
    workers := List.replicate n true, processed := [] }

/-- Execution invariant: the processed log, the queue and the pending pushes
always concatenate to the full traversal output; `done` implies the walk has
emitted everything; the worker count never changes; and once any worker has
exited, `done` holds and the queue is—and stays—empty. -/
def Inv (full : List String) (n : Nat) (s : SysState) : Prop :=
  s.processed ++ s.queue ++ s.toPush = full ∧
  (s.done = true → s.toPush = []) ∧
  s.workers.length = n ∧
  ((∃ i : Nat, s.workers[i]? = some false) → s.done = true ∧ s.queue = [])

lemma applyAction_inv {full : List String} {n : Nat} {s s' : SysState}
    {a : Action} (hinv : Inv full n s) (h : applyAction s a = some s') :
    Inv full n s' := by
  obtain ⟨h1, h2, h3, h4⟩ := hinv
  cases a with
  | push =>
    cases htp : s.toPush with
    | nil => simp [applyAction, htp] at h
    | cons p rest =>
      simp only [applyAction, htp, Option.some.injEq] at h
      subst h
      have hdone : s.done = false := by
        cases hd : s.done
        · rfl
        · rw [h2 hd] at htp; cases htp
      refine ⟨?_, by simp [hdone], h3, fun hex => ?_⟩
      · show s.processed ++ (s.queue ++ [p]) ++ rest = full
        rw [← h1, htp]
        simp
      · have := h4 hex
        rw [hdone] at this
        cases this.1
  | signalDone =>
    simp only [applyAction] at h
    split at h
    next hc =>
      injection h with h
      subst h
      refine ⟨h1, fun _ => hc.1, h3, fun hex => ?_⟩
      have := h4 hex
      rw [hc.2] at this
      cases this.1
    next hc => cases h
  | popA i =>
    rcases hw : s.workers[i]? with _ | b
    · cases hq : s.queue <;> simp [applyAction, hw, hq] at h
    · cases b
      · cases hq : s.queue <;> simp [applyAction, hw, hq] at h
      · cases hq : s.queue with
        | nil => simp [applyAction, hw, hq] at h
        | cons p rest =>
          simp only [applyAction, hw, hq, Option.some.injEq] at h
          subst h
          refine ⟨?_, h2, h3, fun hex => ?_⟩
          · show (s.processed ++ [p]) ++ rest ++ s.toPush = full
            rw [← h1, hq]
            simp
          · have := h4 hex
            rw [hq] at this
            cases this.2
  | exitA i =>
    rcases hw : s.workers[i]? with _ | b
    · simp [applyAction, hw] at h
    · cases b
      · simp [applyAction, hw] at h
      · simp only [applyAction, hw] at h
        split at h
        next hc =>
          injection h with h
          subst h
          exact ⟨h1, h2, by simp [h3], fun _ => hc⟩
        next hc => cases h

lemma runTrace_inv {full : List String} {n : Nat} :
    ∀ {tr : List Action} {s s' : SysState}, Inv full n s →
      runTrace s tr = some s' → Inv full n s' := by
  intro tr
  induction tr with
  | nil =>
    intro s s' hinv h
    injection h with h
    subst h
    exact hinv
  | cons a tl ih =>
    intro s s' hinv h
    unfold runTrace at h
    cases ha : applyAction s a with
    | none => rw [ha] at h; cases h
    | some s1 =>
      rw [ha] at h
      exact ih (applyAction_inv hinv ha) h

lemma initState_inv (f : Forest) (n : Nat) :
    Inv (traverseDirectory f []).1 n (initState f n) := by
  refine ⟨by simp [initState], by simp [initState], by simp [initState], ?_⟩
  rintro ⟨i, hi⟩
  simp only [initState] at hi
  rw [List.getElem?_replicate] at hi
  split at hi
  · cases hi
  · cases hi

/-! ### Claim C1 -/

/-- C1: on any fully enumerable directory tree the walk succeeds and the Tree
Walker enqueues exactly the reachable regular files, in depth-first order,
each occurrence exactly once; and under every schedule of at least one worker
that runs to completion (every worker has observed `done` with an empty queue
and exited), the files handed to `processFile` are exactly the enqueued ones
— each exactly once, in FIFO order — regardless of the number of workers. -/
theorem traverseDirectory_touches_each_file_once
    (f : Forest) (n : Nat) (tr : List Action) (final : SysState)
    (hg : good f = true) (hn : 1 ≤ n)
    (hrun : runTrace (initState f n) tr = some final)
    (hterm : isTerminal final = true) :
    (traverseDirectory f []).2 = true ∧
    (traverseDirectory f []).1 = reachableFiles f ∧
    final.processed = reachableFiles f ∧
    ∀ p, final.processed.count p = (reachableFiles f).count p := by
  have hwalk := traverseDirectory_good f [] hg
  have hinv := runTrace_inv (initState_inv f n) hrun
  obtain ⟨h1, h2, h3, h4⟩ := hinv
  simp only [isTerminal, Bool.and_eq_true, List.all_eq_true] at hterm
  obtain ⟨⟨htp, hdone⟩, hall⟩ := hterm
  have htp' : final.toPush = [] := by simpa using htp
  have hex : ∃ i : Nat, final.workers[i]? = some false := by
    have hne : final.workers ≠ [] := by
      intro hnil
      rw [hnil] at h3
      simp at h3
      omega
    cases hw : final.workers with
    | nil => exact absurd hw hne
    | cons b rest =>
      refine ⟨0, ?_⟩
      have hb : b = false := by
        have := hall b (by rw [hw]; exact List.mem_cons_self b rest)
        simpa using this
      simp [hw, hb]
  have hq : final.queue = [] := (h4 hex).2
  have hproc : final.processed = (traverseDirectory f []).1 := by
    have := h1
    rw [htp', hq] at this
    simpa using this
  rw [hwalk] at hproc
  simp only [List.nil_append] at hproc
  refine ⟨by rw [hwalk], by rw [hwalk]; simp, hproc, fun p => by rw [hproc]⟩

/-- A concrete tree for the C1 witness: files `a` and `b` at the root, a
subdirectory in between holding `c`. -/
def wTree : Forest :=
  Forest.consFile ("a") (Forest.consDir
    (Forest.consFile ("c") Forest.nil)
    (Forest.consFile ("b") Forest.nil))

/-- A concrete complete schedule for one worker on `wTree`. -/
def wTrace : List Action :=
  [Action.push, Action.push, Action.push, Action.signalDone,
   Action.popA 0, Action.popA 0, Action.popA 0, Action.exitA 0]

/-- The final state that schedule reaches. -/
def wFinal : SysState :=
  { queue := [], toPush := [], done := true, workers := [false],
    processed := [("a"), ("c"), ("b")] }

/-- C1 witness: on the concrete tree `wTree` with one worker and the concrete
schedule `wTrace`, the run terminates and the processed log is exactly the
depth-first list of reachable files, `[a, c, b]`, each touched once. -/
theorem traverseDirectory_touches_each_file_once_witness :
    good wTree = true ∧
    runTrace (initState wTree 1) wTrace = some wFinal ∧
    isTerminal wFinal = true ∧
    wFinal.processed = reachableFiles wTree ∧
    (traverseDirectory wTree []).1 = reachableFiles wTree := by
  refine ⟨by decide, by decide, by decide, ?_, ?_⟩
  · exact (traverseDirectory_touches_each_file_once wTree 1 wTrace wFinal
      (by decide) (by decide) (by decide) (by decide)).2.2.1
  · exact (traverseDirectory_touches_each_file_once wTree 1 wTrace wFinal
      (by decide) (by decide) (by decide) (by decide)).2.1

/-! ### Claim C6: the worker loop body (C++ lines 71-85)

    while (true) {
        fs::path file_path;
        {
            std::unique_lock<std::mutex> lock(queue_mutex);
            cv.wait(lock, [&] { return !files.empty() || done; });
            if (done && files.empty()) { break; }
            file_path = files.front();
            files.pop();
        }
        processFile(file_path, debug);
    }
-/

inductive WAction : Type where
  | exitLoop : WAction
  | popFront : String → WAction
  | keepWaiting : WAction
deriving DecidableEq

/-- The decision the worker body makes each time it holds `queue_mutex`, as a
function of the observed shared state `(files, done)`.  `cv.wait(lock, pred)`
returns only once `pred` = `!files.empty() || done` holds, so when neither
disjunct holds the worker stays blocked; once it returns, the worker breaks
out of its loop if `done && files.empty()`, and in every remaining case — the
queue non-empty, whatever `done` is — it takes `files.front()` and pops it. -/
def workerObserve : List String → Bool → WAction
  | [], false => .keepWaiting
  | [], true => .exitLoop
  | p :: _, _ => .popFront p

/-- C6: `done = true` together with an empty queue is the only exit condition
of a worker's loop: the worker exits exactly in that state; in a state with a
non-empty queue it dequeues the front element, and in a state with an empty
queue but `done` still false it continues waiting. -/
theorem worker_exit_condition (q : List String) (d : Bool) :
    (workerObserve q d = WAction.exitLoop ↔ d = true ∧ q = []) ∧
    (∀ p rest, q = p :: rest → workerObserve q d = WAction.popFront p) ∧
    (q = [] → d = false → workerObserve q d = WAction.keepWaiting) := by
  cases q <;> cases d <;> simp [workerObserve]

/-- C6 witness: with the queue holding `x` the worker dequeues `x` even though
`done` is set; with the queue empty and `done` set it exits. -/
theorem worker_exit_condition_witness :
    workerObserve [("x")] true = WAction.popFront ("x") ∧
    workerObserve [] true = WAction.exitLoop :=
  ⟨(worker_exit_condition [("x")] true).2.1 ("x") [] rfl,
   (worker_exit_condition [] true).1.mpr ⟨rfl, rfl⟩⟩

/-! ## Orchestrator: `startDirectoryTraversal` and `main`
(C++ lines 63-111 and 114-142) -/

inductive ProcExit : Type where
  | code : Nat → ProcExit
  | aborted : ProcExit
deriving DecidableEq

/-- Number of worker threads spawned (C++ lines 88 and 93-95): exactly
`std::thread::hardware_concurrency()`, with no fallback of any kind when the
query yields `0` — the spawn loop `for (int i = 0; i < max_threads; ++i)` then
runs zero times. -/
def numWorkers (hw : Nat) : Nat := hw

structure RunModel where
  workersSpawned : Nat
  pushed : List String
  doneSignaled : Bool
  workersJoined : Bool
  stdoutLines : List (String × Bool)
  stderrLines : List String
  touched : List (String × Nat)
  exitStatus : ProcExit
deriving DecidableEq

/-- Whole-run model: `startDirectoryTraversal` (C++ lines 63-111) together
with `main`'s try/catch and return value (lines 129-141), over an abstract
filesystem.  `root` is the root directory's contents, `hw` the value
`std::thread::hardware_concurrency()` reports, and `openable p` / `size p`
whether a discovered file can be opened and how many bytes it holds.
`stdoutLines` pairs each line with whether it was printed while holding
`console_mutex`.

Deterministic projection of the concurrent run:

* the `Threads: <n>` line (lines 89-91, debug only) is printed before any
  worker is spawned and before the walk starts, with no `console_mutex`
  guard, so it is recorded first with lock flag `false`;
* by `traverseDirectory_touches_each_file_once`, under every schedule with at
  least one worker the files handed to `processFile` are exactly the enqueued
  ones, so the per-file outputs are recorded in queue (traversal) order; with
  `hw = 0` the spawn loop runs zero times, the queue is filled, `done` is set,
  the join loop is vacuous and `main` returns 0 with no file ever processed;
* if the walk throws (walk flag `false`), the exception propagates out of
  line 98 past the shutdown block (lines 100-105): `done` is never set, there
  is no broadcast and no join.  During the unwinding the destructor of the
  `workers` vector runs on still-joinable `std::thread`s, and a joinable
  thread's destructor calls `std::terminate`, so with at least one spawned
  worker the process aborts before `main`'s catch can report or return 1;
  with zero spawned workers the exception reaches `main`'s catch (lines
  132-135), which prints the filesystem error and returns 1.  Which queued
  files a worker managed to touch before an abort is scheduling-dependent, so
  on the abort path the model records only the guaranteed per-file outputs
  (none). -/
def mainModel (root : Forest) (hw : Nat) (debug : Bool)
    (openable : String → Bool) (size : String → Nat) : RunModel :=
  let n := numWorkers hw
  let threadsOut : List (String × Bool) :=
    if debug then [((("Threads: ") ++ toString n), false)] else []
  let w := traverseDirectory root []
  let processedPaths : List String :=
    if n = 0 then [] else if w.2 then w.1 else []
  let outs := processedPaths.map
    (fun p => (p, processFile p debug (openable p) (size p)))
  { workersSpawned := n
    pushed := w.1
    doneSignaled := w.2
    workersJoined := w.2
    stdoutLines := threadsOut ++
      outs.flatMap (fun po => po.2.outLines.map (fun l => (l, true)))
    stderrLines := outs.flatMap (fun po => po.2.errLines) ++
      (if w.2 then [] else if n = 0 then [("Filesystem error")] else [])
    touched := outs.filterMap
      (fun po => match po.2.bytesRead with
        | some b => some (po.1, b)
        | none => none)
    exitStatus := if w.2 then ProcExit.code 0
      else if n = 0 then ProcExit.code 1 else ProcExit.aborted }

/-! ### Claim C2 -/

/-- C2 is a code bug, witnessed here on the concrete input: a root whose only
entry is a subdirectory that cannot be enumerated, with 2 workers spawned.
The walk throws, the shutdown block is skipped — `done` is never set, no
broadcast, the workers are never joined — and the destructors of the joinable
worker threads abort the process via `std::terminate` during unwinding, so
the run neither reports the filesystem error nor exits with code 1. -/
theorem walk_error_skips_shutdown_bug :
    (mainModel (Forest.consBadDir Forest.nil) 2 false (fun _ => true)
      (fun _ => 0)).doneSignaled = false ∧
    (mainModel (Forest.consBadDir Forest.nil) 2 false (fun _ => true)
      (fun _ => 0)).workersJoined = false ∧
    (mainModel (Forest.consBadDir Forest.nil) 2 false (fun _ => true)
      (fun _ => 0)).exitStatus = ProcExit.aborted ∧
    (mainModel (Forest.consBadDir Forest.nil) 2 false (fun _ => true)
      (fun _ => 0)).exitStatus ≠ ProcExit.code 1 ∧
    (mainModel (Forest.consBadDir Forest.nil) 2 false (fun _ => true)
      (fun _ => 0)).stderrLines = [] := by
  decide

/-! ### Claim C5 -/

/-- C5 is a code bug, witnessed here at the failing input
`hardware_concurrency() = 0`: the pool size is taken verbatim with no
fallback, zero workers are spawned, and on a tree with a regular file the
walk still fills the queue, `done` is signalled, the join loop is vacuous and
the process exits 0 — but the file is never touched. -/
theorem zero_hw_spawns_zero_workers_bug :
    numWorkers 0 = 0 ∧
    ¬ 1 ≤ numWorkers 0 ∧
    (mainModel (Forest.consFile ("f") Forest.nil) 0 false (fun _ => true)
      (fun _ => 100)).workersSpawned = 0 ∧
    (mainModel (Forest.consFile ("f") Forest.nil) 0 false (fun _ => true)
      (fun _ => 100)).pushed = [("f")] ∧
    (mainModel (Forest.consFile ("f") Forest.nil) 0 false (fun _ => true)
      (fun _ => 100)).touched = [] ∧
    (mainModel (Forest.consFile ("f") Forest.nil) 0 false (fun _ => true)
      (fun _ => 100)).exitStatus = ProcExit.code 0 := by
  decide

/-! ### Claim C7 -/

/-- C7: a failure to open a single file is non-fatal.  On any fully
enumerable tree with at least one worker, a discovered file whose open fails
yields an `Unable to open file:` stderr line naming it, every other openable
file is still touched (read for `min 1024 size` bytes), and the process exits
with code 0.  (`processFile` itself contains no throwing operation — a stream
failure only sets state bits — so in the embedding it is a total function and
always returns normally to the worker loop.) -/
theorem file_open_failure_nonfatal
    (root : Forest) (hw : Nat) (debug : Bool)
    (openable : String → Bool) (size : String → Nat) (f : String)
    (hg : good root = true) (hn : 1 ≤ hw)
    (hf : f ∈ reachableFiles root) (hopen : openable f = false)
    (hne : f ≠ "") :
    ((("Unable to open file: ") ++ f) ∈
      (mainModel root hw debug openable size).stderrLines) ∧
    (∀ g, g ∈ reachableFiles root → openable g = true → g ≠ "" →
      (g, min 1024 (size g)) ∈ (mainModel root hw debug openable size).touched) ∧
    (mainModel root hw debug openable size).exitStatus = ProcExit.code 0 := by
  have hwalk := traverseDirectory_good root [] hg
  have hhw : ¬ hw = 0 := by omega
  refine ⟨?_, ?_, ?_⟩
  · simp only [mainModel, hwalk, numWorkers, if_neg hhw]
    simp only [List.nil_append]
    rw [List.mem_append, List.mem_flatMap]
    left
    refine ⟨(f, processFile f debug (openable f) (size f)),
      List.mem_map_of_mem _ hf, ?_⟩
    simp [processFile, hne, hopen]
  · intro g hgmem hopeng hgne
    simp only [mainModel, hwalk, numWorkers, if_neg hhw]
    simp only [List.nil_append]
    rw [List.mem_filterMap]
    refine ⟨(g, processFile g debug (openable g) (size g)),
      List.mem_map_of_mem _ hgmem, ?_⟩
    simp [processFile, hgne, hopeng]
  · simp [mainModel, hwalk]

/-- A concrete openability map for the C7 witness: only `b` opens. -/
def wOpen (p : String) : Bool := p == ("b")

/-- C7 witness: a root with files `a` (unopenable) and `b` (openable,
2000 bytes), one worker: stderr names `a`, `b` is still read for 1024 bytes,
and the run exits 0. -/
theorem file_open_failure_nonfatal_witness :
    ((("Unable to open file: ") ++ ("a")) ∈
      (mainModel (Forest.consFile ("a") (Forest.consFile ("b") Forest.nil))
        1 false wOpen (fun _ => 2000)).stderrLines) ∧
    (∀ g, g ∈ reachableFiles
        (Forest.consFile ("a") (Forest.consFile ("b") Forest.nil)) →
      wOpen g = true → g ≠ "" →
      (g, min 1024 2000) ∈
        (mainModel (Forest.consFile ("a") (Forest.consFile ("b") Forest.nil))
          1 false wOpen (fun _ => 2000)).touched) ∧
    (mainModel (Forest.consFile ("a") (Forest.consFile ("b") Forest.nil))
      1 false wOpen (fun _ => 2000)).exitStatus = ProcExit.code 0 :=
  file_open_failure_nonfatal
    (Forest.consFile ("a") (Forest.consFile ("b") Forest.nil))
    1 false wOpen (fun _ => 2000) ("a")
    (by decide) (by decide) (by decide) (by decide) (by decide)

/-! ### Claim C10 -/

lemma processFile_outLines_mem {path : String} {debug openable : Bool}
    {size : Nat} {l : String}
    (h : l ∈ (processFile path debug openable size).outLines) :
    l = ("Downloading file: ") ++ sanitize path := by
  by_cases hp : path = ""
  · simp [processFile, hp] at h
  · cases debug <;> cases openable <;> simp [processFile, hp] at h <;> exact h

/-- C10: with debug enabled, the first stdout line of the run is
`Threads: <n>` with `n` the worker count, printed before any worker is
spawned and before any file is processed and without holding the console
lock (flag `false`); every later stdout line is a per-file
`Downloading file:` line printed under the console lock (flag `true`). -/
theorem threads_line_first
    (root : Forest) (hw : Nat)
    (openable : String → Bool) (size : String → Nat) :
    ((mainModel root hw true openable size).stdoutLines.head? =
      some ((("Threads: ") ++ toString (numWorkers hw)), false)) ∧
    (∀ l ∈ (mainModel root hw true openable size).stdoutLines.tail,
      l.2 = true ∧ ∃ p, l.1 = ("Downloading file: ") ++ sanitize p) := by
  constructor
  · simp [mainModel]
  · intro l hl
    simp only [mainModel, if_true, List.singleton_append, List.tail_cons] at hl
    rw [List.mem_flatMap] at hl
    obtain ⟨po, hpo, hl2⟩ := hl
    rw [List.mem_map] at hl2
    obtain ⟨line, hline, rfl⟩ := hl2
    rw [List.mem_map] at hpo
    obtain ⟨p, hp, rfl⟩ := hpo
    exact ⟨rfl, p, processFile_outLines_mem hline⟩

/-- C10 witness: on the concrete tree `wTree` with 2 workers and debug on,
the first stdout line is `Threads: 2` outside the lock, and the concrete tail
line for file `a` is under the lock and has the `Downloading file:` shape. -/
theorem threads_line_first_witness :
    ((mainModel wTree 2 true (fun _ => true) (fun _ => 1)).stdoutLines.head? =
      some ((("Threads: ") ++ toString (numWorkers 2)), false)) ∧
    ((("Downloading file: a"), true).2 = true ∧
      ∃ p, ((("Downloading file: a"), true)).1 =
        ("Downloading file: ") ++ sanitize p) :=
  ⟨(threads_line_first wTree 2 (fun _ => true) (fun _ => 1)).1,
   (threads_line_first wTree 2 (fun _ => true) (fun _ => 1)).2
     ((("Downloading file: a"), true)) (by decide)⟩

end DFD
